import Mathlib

/-
Shallow embedding of `src/lof.py`, a tool that lists function-like
declarations of a C/C++ translation unit together with their line counts,
filtered and ranked ascending by size.

External collaborators (libclang cursors, the compilation database, the
filesystem) are modelled as explicit data: an AST cursor is a finite tree
carrying kind / spelling / display name / extent, semantic-parent chains are
explicit parent-linked nodes, the compilation database is a lookup structure,
and Python exceptions (`AssertionError`, `IndexError`) and the recoverable
`TranslationUnitLoadError` are explicit error values.
-/

namespace Lof

/-- Model of `clang.cindex.CursorKind`: the kinds `lof.py` mentions, plus a
few other kinds (fields, typedefs, enums, structs) that occur in trees but are
neither function-like nor in `all_qual_kinds`. -/
inductive CursorKind where
  | TRANSLATION_UNIT
  | FUNCTION_DECL
  | CONSTRUCTOR
  | CXX_METHOD
  | FUNCTION_TEMPLATE
  | CLASS_DECL
  | STRUCT_DECL
  | NAMESPACE
  | FIELD_DECL
  | TYPEDEF_DECL
  | ENUM_DECL
deriving DecidableEq, Repr

/-- Model of `clang.cindex.SourceRange`: only the start/end line numbers are
consumed by `lof.py` (`extent.start.line`, `extent.end.line`). -/
structure SourceRange where
  startLine : Nat
  endLine : Nat
deriving DecidableEq, Repr

/-- Model of a `clang.cindex.Cursor` as seen by the traversal in
`list_of_functions`: its kind, `spelling`, `displayname`, `extent`
(`none` models a cursor whose extent is falsy/absent) and its children
(`get_children()`). -/
inductive Cursor where
  | mk (kind : CursorKind) (spelling : String) (displayname : String)
       (extent : Option SourceRange) (children : List Cursor)

def Cursor.kind : Cursor → CursorKind
  | .mk k _ _ _ _ => k

def Cursor.spelling : Cursor → String
  | .mk _ s _ _ _ => s

def Cursor.displayname : Cursor → String
  | .mk _ _ d _ _ => d

def Cursor.extent : Cursor → Option SourceRange
  | .mk _ _ _ e _ => e

def Cursor.children : Cursor → List Cursor
  | .mk _ _ _ _ c => c

/-- Model of a cursor viewed through its `semantic_parent` chain, as walked by
`fully_qualified`: kind, spelling and the parent link (`none` models
`semantic_parent` being `None`). -/
inductive PCursor where
  | mk (kind : CursorKind) (spelling : String) (semantic_parent : Option PCursor)

def PCursor.kind : PCursor → CursorKind
  | .mk k _ _ => k

def PCursor.spelling : PCursor → String
  | .mk _ s _ => s

def PCursor.semantic_parent : PCursor → Option PCursor
  | .mk _ _ p => p

/-- Embedding of `fully_qualified(c)` (src/lof.py lines 38-51): empty string
for `None` or the translation unit, otherwise the parent's qualified name
joined with `::` to the cursor's spelling, dropping an empty parent prefix.
The `except ValueError` fallback never fires in the model because parent
lookups are total data. -/
def fully_qualified : Option PCursor → String
  | none => ""
  | some (.mk k sp par) =>
    if k = CursorKind.TRANSLATION_UNIT then ""
    else
      let res := fully_qualified par
      if res ≠ "" then res ++ "::" ++ sp else sp

/-- Embedding of the `FunctionEntry` dataclass (src/lof.py lines 11-28):
a name and the cursor the entry was created from. -/
structure FunctionEntry where
  name : String
  node : Cursor

/-- Embedding of the `FunctionEntry.extent` property: `self.node.extent`. -/
def FunctionEntry.extent (fe : FunctionEntry) : Option SourceRange :=
  fe.node.extent

/-- Embedding of the `FunctionEntry.lines` property: `0` when the extent is
absent, otherwise `extent.end.line - extent.start.line` (Python integer
subtraction, hence `Int`). -/
def FunctionEntry.lines (fe : FunctionEntry) : Int :=
  match fe.extent with
  | none => 0
  | some e => (e.endLine : Int) - (e.startLine : Int)

/-- The `all_fn_types` list of `list_of_functions` (src/lof.py lines 56-61). -/
def all_fn_types : List CursorKind :=
  [CursorKind.FUNCTION_DECL, CursorKind.CONSTRUCTOR,
   CursorKind.CXX_METHOD, CursorKind.FUNCTION_TEMPLATE]

/-- The `all_qual_kinds` list of `list_of_functions` (src/lof.py lines 63-66):
only `CLASS_DECL` and `NAMESPACE`. -/
def all_qual_kinds : List CursorKind :=
  [CursorKind.CLASS_DECL, CursorKind.NAMESPACE]

mutual
/-- Embedding of `list_of_functions(root)` (src/lof.py lines 54-74).
Because the Lean tree has no uplinks, the `PCursor` standing for `root`
itself (the value `node.semantic_parent` yields for the children being
visited) is passed alongside. For each child: a function-like kind emits
`FunctionEntry(f"{fully_qualified(node.semantic_parent)}::{node.displayname}", node)`;
a kind in `all_qual_kinds` is recursed into; anything else is skipped. -/
def list_of_functions (root : Cursor) (selfP : PCursor) : List FunctionEntry :=
  match root with
  | .mk _ _ _ _ children => lof_children children selfP

/-- The `for node in root.get_children()` loop body of `list_of_functions`,
recursing over the child list. -/
def lof_children (children : List Cursor) (selfP : PCursor) : List FunctionEntry :=
  match children with
  | [] => []
  | node :: rest =>
    (if node.kind ∈ all_fn_types then
      [{ name := fully_qualified (some selfP) ++ "::" ++ node.displayname,
         node := node }]
    else if node.kind ∈ all_qual_kinds then
      list_of_functions node (PCursor.mk node.kind node.spelling (some selfP))
    else []) ++ lof_children rest selfP
end

/-- Embedding of `filter_empty_functions` (src/lof.py lines 105-109):
keep entries with `fn.lines > 0`. -/
def filter_empty_functions (functions : List FunctionEntry) : List FunctionEntry :=
  functions.filter (fun fn => 0 < fn.lines)

/-- The sort key relation of `order_by_lines`: Python's `sorted` with
`key = lambda fn: fn.lines` compares entries by their `lines` value. -/
def linesLE (a b : FunctionEntry) : Bool :=
  decide (a.lines ≤ b.lines)

/-- Embedding of `order_by_lines` (src/lof.py lines 112-116): Python's
`sorted` is a stable ascending sort by the key, modelled by the stable
`List.mergeSort` under `linesLE`. -/
def order_by_lines (functions : List FunctionEntry) : List FunctionEntry :=
  functions.mergeSort linesLE

/-- The ranking pipeline of the spec (filter, then stable ascending sort), as
composed by the program: `filter_empty_functions` inside `functions_from_file`
followed by the single `order_by_lines` pass in `main`. -/
def rank (functions : List FunctionEntry) : List FunctionEntry :=
  order_by_lines (filter_empty_functions functions)

/-- File paths are plain strings in the model. -/
abbrev Path := String

/-- Python runtime exceptions that the extractor can raise: a failed `assert`
or an out-of-range list index. -/
inductive PyError where
  | assertionError (msg : String)
  | indexError
deriving DecidableEq, Repr

/-- Model of `clang.cindex.CompileCommand`: the source `filename` and the
`arguments` sequence. -/
structure CompileCommand where
  filename : Path
  arguments : List String

/-- Model of `clang.cindex.CompilationDatabase` (the directory handed to
`fromDirectory` is the database itself here): `getCompileCommands` per
absolute source path, plus the full command list for `getAllCompileCommands`. -/
structure CompilationDatabase where
  getCompileCommands : Path → List CompileCommand
  getAllCompileCommands : List CompileCommand

/-- Embedding of `compile_commands_from_db(db, source)` (src/lof.py lines
77-85). `absF` models `Path.absolute()` (a filesystem operation). With no
database it returns `[]`; otherwise it takes `compile_commands[0].arguments`,
where the subscript raises `IndexError` when the lookup returned no command. -/
def compile_commands_from_db (absF : Path → Path) (db : Option CompilationDatabase)
    (source : Path) : Except PyError (List String) :=
  match db with
  | none => Except.ok []
  | some cc_db =>
    let source_file := absF source
    let compile_commands := cc_db.getCompileCommands source_file
    match compile_commands.get? 0 with
    | none => Except.error PyError.indexError
    | some cmd => Except.ok cmd.arguments

/-- Model of Python's `str.startswith(pre)`. -/
def py_startswith (s pre : String) : Bool :=
  decide (s.data.take pre.data.length = pre.data)

/-- Embedding of the `for idx in range(len(full_command))` loop of
`compilation_args_from_db` (src/lof.py lines 91-102). Arguments starting with
`-I` or `-D` are kept; on the exact token `-isystem` the loop first runs
`assert idx < len(full_command)` (modelled as the explicit test it is) and
then reads `full_command[idx + 1]`, which raises `IndexError` when out of
range. -/
def compilation_args_loop (full_command : List String) (idx : Nat)
    (filtered_args : List String) : Except PyError (List String) :=
  if h : idx < full_command.length then
    let arg := full_command.get ⟨idx, h⟩
    let fa := if py_startswith arg "-I" || py_startswith arg "-D" then
      filtered_args ++ [arg] else filtered_args
    if arg = "-isystem" then
      if idx < full_command.length then
        match full_command.get? (idx + 1) with
        | some nxt => compilation_args_loop full_command (idx + 1) (fa ++ [arg, nxt])
        | none => Except.error PyError.indexError
      else Except.error (PyError.assertionError "-isystem requires a second argument")
    else compilation_args_loop full_command (idx + 1) fa
  else Except.ok filtered_args
termination_by full_command.length - idx

/-- Embedding of `compilation_args_from_db(db, source)` (src/lof.py lines
88-102): fetch the full command, then filter it with the loop above. -/
def compilation_args_from_db (absF : Path → Path) (db : Option CompilationDatabase)
    (source : Path) : Except PyError (List String) :=
  match compile_commands_from_db absF db source with
  | Except.error e => Except.error e
  | Except.ok full_command => compilation_args_loop full_command 0 []

/-- The recoverable parse failure of the AST provider
(`clang.cindex.TranslationUnitLoadError`). -/
inductive ParseError where
  | translationUnitLoadError
deriving DecidableEq, Repr

/-- Model of the AST provider boundary: `Index.create().parse(source, args)`
returns a translation-unit root cursor or raises the recoverable failure. -/
structure ASTProvider where
  parse : Path → List String → Except ParseError Cursor

/-- Embedding of `tu_from_source` (src/lof.py lines 31-35): delegate to the
provider's parse (logging has no observable effect on the result). -/
def tu_from_source (env : ASTProvider) (source : Path)
    (compilation_args : List String) : Except ParseError Cursor :=
  env.parse source compilation_args

/-- The `PCursor` of a translation-unit root cursor: no semantic parent. -/
def rootPCursor (tu : Cursor) : PCursor :=
  PCursor.mk tu.kind tu.spelling none

/-- Embedding of `functions_from_file(db, source)` (src/lof.py lines
119-129): extract arguments (their `PyError` propagates), parse — a
`TranslationUnitLoadError` is caught and yields `[]` — then collect and
filter. -/
def functions_from_file (env : ASTProvider) (absF : Path → Path)
    (db : Option CompilationDatabase) (source : Path) :
    Except PyError (List FunctionEntry) :=
  match compilation_args_from_db absF db source with
  | Except.error e => Except.error e
  | Except.ok compilation_args =>
    match tu_from_source env source compilation_args with
    | Except.error _ => Except.ok []
    | Except.ok tu =>
      Except.ok (filter_empty_functions (list_of_functions tu (rootPCursor tu)))

/-- Embedding of `source_files_from_db(db)` (src/lof.py lines 132-134). -/
def source_files_from_db (db : CompilationDatabase) : List Path :=
  db.getAllCompileCommands.map (fun command => command.filename)

/-- Python list slicing `l[:n]`: a nonnegative bound keeps the first `n`
elements, a negative bound keeps all but the last `-n`. -/
def pySliceTo (n : Int) (l : List Path) : List Path :=
  if 0 ≤ n then l.take n.toNat else l.take (l.length - n.natAbs)

/-- Embedding of the file-selection step of `main` (src/lof.py lines
160-162): `if args.max_sources: source_files = source_files[:args.max_sources]`.
Python truthiness makes the cap apply only when `max_sources` is present and
nonzero. -/
def selected_sources (db : CompilationDatabase) (max_sources : Option Int) :
    List Path :=
  let source_files := source_files_from_db db
  match max_sources with
  | none => source_files
  | some n => if n ≠ 0 then pySliceTo n source_files else source_files

/-- Embedding of the batch branch of `main` (src/lof.py lines 158-166):
process every selected file and concatenate the per-file entries; a `PyError`
raised for any file propagates. -/
def batch_functions (env : ASTProvider) (absF : Path → Path)
    (db : CompilationDatabase) (max_sources : Option Int) :
    Except PyError (List FunctionEntry) :=
  (selected_sources db max_sources).foldr
    (fun source_file acc =>
      match functions_from_file env absF (some db) source_file, acc with
      | Except.error e, _ => Except.error e
      | Except.ok _, Except.error e => Except.error e
      | Except.ok fns, Except.ok rest => Except.ok (fns ++ rest))
    (Except.ok [])

/-! ### Helper lemmas about the traversal -/

/-- A cursor whose kind is the translation unit resolves to the empty string. -/
theorem fully_qualified_tu (s : String) (p : Option PCursor) :
    fully_qualified (some (PCursor.mk CursorKind.TRANSLATION_UNIT s p)) = "" := by
  simp [fully_qualified]

/-- Scope-introducing kinds are never function-like. -/
theorem qual_kind_not_fn {k : CursorKind} (h : k ∈ all_qual_kinds) :
    k ∉ all_fn_types := by
  simp only [all_qual_kinds, List.mem_cons, List.not_mem_nil, or_false] at h
  rcases h with h | h <;> subst h <;> decide

/-- A function-like child is emitted by the loop with the name built from the
parent's qualified name. -/
theorem mem_lof_children_fn {children : List Cursor} {node : Cursor}
    (selfP : PCursor) (hmem : node ∈ children) (hfn : node.kind ∈ all_fn_types) :
    ({ name := fully_qualified (some selfP) ++ "::" ++ node.displayname,
       node := node } : FunctionEntry) ∈ lof_children children selfP := by
  induction children with
  | nil => cases hmem
  | cons hd tl ih =>
    rw [lof_children]
    rcases List.mem_cons.mp hmem with h | h
    · subst h
      exact List.mem_append_left _ (by simp [hfn])
    · exact List.mem_append_right _ (ih h)

/-- An entry produced inside a scope-introducing child also appears in the
enclosing loop's output. -/
theorem mem_lof_children_rec {children : List Cursor} {s : Cursor}
    {e : FunctionEntry} (selfP : PCursor) (hmem : s ∈ children)
    (hq : s.kind ∈ all_qual_kinds)
    (he : e ∈ list_of_functions s (PCursor.mk s.kind s.spelling (some selfP))) :
    e ∈ lof_children children selfP := by
  induction children with
  | nil => cases hmem
  | cons hd tl ih =>
    rw [lof_children]
    rcases List.mem_cons.mp hmem with h | h
    · subst h
      refine List.mem_append_left _ ?_
      rw [if_neg (by simpa using qual_kind_not_fn hq), if_pos (by simpa using hq)]
      exact he
    · exact List.mem_append_right _ (ih h)

/-- A chain of scope-introducing nodes from `root` down to a function-like
node `f`: the empty chain means `f` is a direct child of `root`; a nonempty
chain descends through a scope-introducing child. -/
def ScopeChainTo (root : Cursor) : List Cursor → Cursor → Prop
  | [], f => f ∈ root.children ∧ f.kind ∈ all_fn_types
  | s :: rest, f => s ∈ root.children ∧ s.kind ∈ all_qual_kinds ∧ ScopeChainTo s rest f

/-- Depth-first traversal reaches every function-like node at the end of a
chain of scope-introducing nodes and emits an entry holding that node. -/
theorem reaches_chain :
    ∀ (path : List Cursor) (root : Cursor) (selfP : PCursor) (f : Cursor),
    ScopeChainTo root path f →
    ∃ e ∈ list_of_functions root selfP, e.node = f
  | [], root, selfP, f, h => by
    obtain ⟨hmem, hfn⟩ := h
    refine ⟨{ name := fully_qualified (some selfP) ++ "::" ++ f.displayname,
              node := f }, ?_, rfl⟩
    match root with
    | .mk k sp dn ext children =>
      rw [list_of_functions]
      exact mem_lof_children_fn selfP hmem hfn
  | s :: rest, root, selfP, f, h => by
    obtain ⟨hmem, hq, hchain⟩ := h
    obtain ⟨e, he, hnode⟩ :=
      reaches_chain rest s (PCursor.mk s.kind s.spelling (some selfP)) f hchain
    refine ⟨e, ?_, hnode⟩
    match root with
    | .mk k sp dn ext children =>
      rw [list_of_functions]
      exact mem_lof_children_rec selfP hmem hq he

/-! ### Concrete example trees -/

/-- Example: free function `g` as the only child of a translation unit. -/
def gNode : Cursor := Cursor.mk CursorKind.FUNCTION_DECL "g" "g" (some ⟨10, 11⟩) []

/-- Example translation-unit root containing only `gNode`. -/
def tuG : Cursor := Cursor.mk CursorKind.TRANSLATION_UNIT "t.cpp" "t.cpp" none [gNode]

/-- Example: method `m` inside a struct `S` inside a translation unit. -/
def mNode : Cursor := Cursor.mk CursorKind.CXX_METHOD "m" "m()" (some ⟨3, 6⟩) []

/-- Example struct node holding `mNode`. -/
def sNode : Cursor := Cursor.mk CursorKind.STRUCT_DECL "S" "S" (some ⟨2, 7⟩) [mNode]

/-- Example translation-unit root containing only `sNode`. -/
def tuS : Cursor := Cursor.mk CursorKind.TRANSLATION_UNIT "t.cpp" "t.cpp" none [sNode]

/-! ### C1 -/

/-- C1 counterexample: a free function `g` whose semantic parent is the
translation-unit root is recorded as `::g`, not `g` — `list_of_functions`
always prepends `{fully_qualified(parent)}::`, and for a file-scope function
the parent's qualified name is empty, leaving a leading `::`. -/
theorem free_function_name_has_leading_colons_cex :
    (list_of_functions tuG (rootPCursor tuG)).map FunctionEntry.name = ["::g"] ∧
    ("::g" : String) ≠ "g" := by
  constructor
  · simp [tuG, gNode, rootPCursor, list_of_functions, lof_children,
      fully_qualified, Cursor.kind, Cursor.children, Cursor.displayname,
      Cursor.spelling, all_fn_types, all_qual_kinds]
  · decide

/-- C1 (amended): for every function-like declaration whose semantic parent is
the translation-unit root, the qualified name recorded in its entry is the
declaration's display name prefixed with `::` (a free function `g` at file
scope is reported as `::g`). -/
theorem free_function_entry_name_eq_colons_display
    (root : Cursor) (selfP : PCursor) (node : Cursor)
    (htu : selfP.kind = CursorKind.TRANSLATION_UNIT)
    (hmem : node ∈ root.children) (hfn : node.kind ∈ all_fn_types) :
    ∃ e ∈ list_of_functions root selfP,
      e.node = node ∧ e.name = "::" ++ node.displayname := by
  match root with
  | .mk k sp dn ext children =>
    refine ⟨{ name := fully_qualified (some selfP) ++ "::" ++ node.displayname,
              node := node }, ?_, rfl, ?_⟩
    · rw [list_of_functions]
      exact mem_lof_children_fn selfP hmem hfn
    · show fully_qualified (some selfP) ++ "::" ++ node.displayname = _
      match selfP with
      | .mk pk ps pp =>
        simp only [PCursor.kind] at htu
        subst htu
        rw [fully_qualified_tu]
        rfl

/-- C1 witness: the amended statement at the concrete tree `tuG`. -/
theorem free_function_entry_name_eq_colons_display_witness :
    ∃ e ∈ list_of_functions tuG (rootPCursor tuG),
      e.node = gNode ∧ e.name = "::" ++ gNode.displayname :=
  free_function_entry_name_eq_colons_display tuG (rootPCursor tuG) gNode
    rfl (List.mem_singleton.mpr rfl) (by decide)

/-! ### C2 -/

/-- C2 counterexample: a method nested inside a struct is not collected —
`all_qual_kinds` contains only `CLASS_DECL` and `NAMESPACE`, so the traversal
does not recurse into `STRUCT_DECL` nodes and the method inside yields no
entry. -/
theorem struct_method_not_collected_cex :
    sNode.kind = CursorKind.STRUCT_DECL ∧
    sNode ∈ tuS.children ∧
    mNode ∈ sNode.children ∧
    mNode.kind ∈ all_fn_types ∧
    list_of_functions tuS (rootPCursor tuS) = [] := by
  refine ⟨rfl, List.mem_singleton.mpr rfl, List.mem_singleton.mpr rfl, by decide, ?_⟩
  simp [tuS, sNode, mNode, rootPCursor, list_of_functions, lof_children,
    fully_qualified, Cursor.kind, Cursor.children, Cursor.displayname,
    Cursor.spelling, all_fn_types, all_qual_kinds]

/-- C2 (amended): for every tree in which a function-like node (free function,
constructor, method, function template) is nested inside any chain of
namespace or class (`CLASS_DECL`) nodes, the depth-first traversal reaches it
and emits an entry for it; struct (`STRUCT_DECL`) nodes are not recursed into,
so a method declared inside a struct is not collected. -/
theorem nested_function_reached_in_class_namespace_chains
    (root : Cursor) (selfP : PCursor) (path : List Cursor) (f : Cursor)
    (h : ScopeChainTo root path f) :
    ∃ e ∈ list_of_functions root selfP, e.node = f :=
  reaches_chain path root selfP f h

/-- C2 witness: a method `f` inside class `C` inside namespace `N` under a
translation unit is reached and collected. -/
theorem nested_function_reached_in_class_namespace_chains_witness :
    ∃ e ∈ list_of_functions
        (Cursor.mk CursorKind.TRANSLATION_UNIT "t.cpp" "t.cpp" none
          [Cursor.mk CursorKind.NAMESPACE "N" "N" (some ⟨1, 8⟩)
            [Cursor.mk CursorKind.CLASS_DECL "C" "C" (some ⟨2, 7⟩)
              [Cursor.mk CursorKind.CXX_METHOD "f" "f()" (some ⟨3, 6⟩) []]]])
        (PCursor.mk CursorKind.TRANSLATION_UNIT "t.cpp" none),
      e.node = Cursor.mk CursorKind.CXX_METHOD "f" "f()" (some ⟨3, 6⟩) [] :=
  nested_function_reached_in_class_namespace_chains _ _
    [Cursor.mk CursorKind.NAMESPACE "N" "N" (some ⟨1, 8⟩)
      [Cursor.mk CursorKind.CLASS_DECL "C" "C" (some ⟨2, 7⟩)
        [Cursor.mk CursorKind.CXX_METHOD "f" "f()" (some ⟨3, 6⟩) []]],
     Cursor.mk CursorKind.CLASS_DECL "C" "C" (some ⟨2, 7⟩)
      [Cursor.mk CursorKind.CXX_METHOD "f" "f()" (some ⟨3, 6⟩) []]] _
    ⟨List.mem_singleton.mpr rfl, by decide,
     List.mem_singleton.mpr rfl, by decide,
     List.mem_singleton.mpr rfl, by decide⟩

/-! ### C3 -/

/-- Example database whose only compile command ends with a dangling
`-isystem`. -/
def dbIsystem : CompilationDatabase :=
  { getCompileCommands := fun _ => [{ filename := "a.cpp", arguments := ["cc", "-isystem"] }],
    getAllCompileCommands := [{ filename := "a.cpp", arguments := ["cc", "-isystem"] }] }

/-- C3: with `-isystem` as the final argument, the extractor fails through the
out-of-bounds access `full_command[idx + 1]` (an `IndexError`), not through
the assertion — `assert idx < len(full_command)` is vacuously true for every
`idx` produced by `range(len(full_command))`, so the intended
`AssertionError` for a malformed `-isystem` pair can never fire. -/
theorem trailing_isystem_raises_index_error :
    compilation_args_from_db id (some dbIsystem) "a.cpp" =
      Except.error PyError.indexError ∧
    ∀ msg, compilation_args_from_db id (some dbIsystem) "a.cpp" ≠
      Except.error (PyError.assertionError msg) := by
  have h1 : compilation_args_from_db id (some dbIsystem) "a.cpp" =
      Except.error PyError.indexError := by
    simp [compilation_args_from_db, compile_commands_from_db, dbIsystem,
      compilation_args_loop, py_startswith]
  exact ⟨h1, fun msg => by rw [h1]; simp⟩

/-! ### C4 -/

/-- Example database that registers no compile command for any file. -/
def dbEmptyLookup : CompilationDatabase :=
  { getCompileCommands := fun _ => [], getAllCompileCommands := [] }

/-- An AST provider that parses every file to an empty translation unit. -/
def envTrivial : ASTProvider :=
  { parse := fun _ _ =>
      Except.ok (Cursor.mk CursorKind.TRANSLATION_UNIT "" "" none []) }

/-- C4: for a source file with no registered compile command, extraction does
not proceed with default behavior — `compile_commands[0]` raises `IndexError`
on the empty lookup result, so processing of the file fails before any parse
is attempted. -/
theorem unregistered_file_raises_index_error :
    compile_commands_from_db id (some dbEmptyLookup) "a.cpp" =
      Except.error PyError.indexError ∧
    functions_from_file envTrivial id (some dbEmptyLookup) "a.cpp" =
      Except.error PyError.indexError := by
  exact ⟨rfl, rfl⟩

/-! ### C10 -/

/-- C10: a function-like declaration whose extent starts and ends on the same
line has `lines = 0` and never appears in the ranked output. -/
theorem same_line_extent_entry_excluded
    (fe : FunctionEntry) (r : SourceRange)
    (hext : fe.extent = some r) (hline : r.startLine = r.endLine) :
    fe.lines = 0 ∧ ∀ l : List FunctionEntry, fe ∉ rank l := by
  have hl : fe.lines = 0 := by
    simp only [FunctionEntry.lines, hext]
    omega
  refine ⟨hl, fun l hmem => ?_⟩
  rw [rank, order_by_lines] at hmem
  have h1 : fe ∈ filter_empty_functions l := List.mem_mergeSort.mp hmem
  rw [filter_empty_functions] at h1
  have h2 := List.of_mem_filter h1
  simp only [decide_eq_true_eq] at h2
  omega

/-- Example entry whose definition sits entirely on line 5. -/
def oneLineEntry : FunctionEntry :=
  { name := "h", node := Cursor.mk CursorKind.FUNCTION_DECL "h" "h" (some ⟨5, 5⟩) [] }

/-- C10 witness: the one-line entry has zero lines and is excluded from the
ranked output of a list containing it. -/
theorem same_line_extent_entry_excluded_witness :
    oneLineEntry.lines = 0 ∧ oneLineEntry ∉ rank [oneLineEntry] :=
  ⟨(same_line_extent_entry_excluded oneLineEntry ⟨5, 5⟩ rfl rfl).1,
   (same_line_extent_entry_excluded oneLineEntry ⟨5, 5⟩ rfl rfl).2 [oneLineEntry]⟩

/-! ### Sort-order helper lemmas -/

/-- The sort key relation is transitive. -/
theorem linesLE_trans (a b c : FunctionEntry) :
    linesLE a b → linesLE b c → linesLE a c := by
  simp only [linesLE, decide_eq_true_eq]
  omega

/-- The sort key relation is total. -/
theorem linesLE_total (a b : FunctionEntry) : linesLE a b || linesLE b a := by
  simp only [linesLE, Bool.or_eq_true, decide_eq_true_eq]
  omega

/-- Every member of the ranked output passed the positivity filter. -/
theorem lines_pos_of_mem_rank {e : FunctionEntry} {l : List FunctionEntry}
    (h : e ∈ rank l) : 0 < e.lines := by
  rw [rank, order_by_lines] at h
  have h1 : e ∈ filter_empty_functions l := List.mem_mergeSort.mp h
  rw [filter_empty_functions] at h1
  have h2 := List.of_mem_filter h1
  simpa using h2

/-- The ranked output is pairwise ordered by the Boolean key relation. -/
theorem rank_pairwise_linesLE (l : List FunctionEntry) :
    (rank l).Pairwise (linesLE · ·) :=
  List.sorted_mergeSort linesLE_trans linesLE_total (filter_empty_functions l)

/-! ### C5 -/

/-- C5: the ranking pipeline keeps exactly the entries with positive
`lines` (where `lines` is the extent's end line minus its start line),
sorted ascending by `lines`; entries of equal `lines` keep their relative
input order (the filtered sublist at each key value is preserved verbatim),
and every entry of the output has `lines ≥ 1`. -/
theorem rank_filters_sorts_stably (l : List FunctionEntry) :
    (∀ (e : FunctionEntry) (r : SourceRange), e.extent = some r →
      e.lines = (r.endLine : Int) - r.startLine) ∧
    (rank l).Perm (filter_empty_functions l) ∧
    (∀ e ∈ rank l, 1 ≤ e.lines) ∧
    (rank l).Pairwise (fun a b => a.lines ≤ b.lines) ∧
    ∀ n : Int, (rank l).filter (fun e => decide (e.lines = n)) =
      (filter_empty_functions l).filter (fun e => decide (e.lines = n)) := by
  refine ⟨?_, ?_, ?_, ?_, ?_⟩
  · intro e r h
    simp [FunctionEntry.lines, h]
  · exact List.mergeSort_perm (filter_empty_functions l) linesLE
  · intro e he
    have := lines_pos_of_mem_rank he
    omega
  · exact (rank_pairwise_linesLE l).imp (fun hab => by
      simpa [linesLE] using hab)
  · intro n
    set p : FunctionEntry → Bool := fun e => decide (e.lines = n) with hp
    have hmemA : ∀ x ∈ (filter_empty_functions l).filter p, x.lines = n := by
      intro x hx
      have := List.of_mem_filter hx
      simpa [hp] using this
    have hA_pw : ((filter_empty_functions l).filter p).Pairwise (linesLE · ·) := by
      refine List.pairwise_of_forall_mem_list ?_
      intro a ha b hb
      have h1 := hmemA a ha
      have h2 := hmemA b hb
      simp [linesLE, h1, h2]
    have hsub : List.Sublist ((filter_empty_functions l).filter p) (rank l) := by
      rw [rank, order_by_lines]
      exact List.sublist_mergeSort linesLE_trans linesLE_total hA_pw
        (List.filter_sublist _)
    have hsub2 : List.Sublist ((filter_empty_functions l).filter p)
        ((rank l).filter p) := by
      have := hsub.filter p
      rwa [List.filter_filter, show (fun a => p a && p a) = p by
        funext a; cases p a <;> simp] at this
    have hlen : ((rank l).filter p).length =
        ((filter_empty_functions l).filter p).length :=
      ((List.mergeSort_perm (filter_empty_functions l) linesLE).filter p).length_eq
    exact (hsub2.eq_of_length hlen.symm).symm

/-! ### C8 -/

/-- C8: the ranking pipeline is idempotent — applying it twice is the same as
applying it once — and any already-filtered, already-sorted sequence is
returned unchanged. -/
theorem rank_idempotent :
    (∀ l : List FunctionEntry, rank (rank l) = rank l) ∧
    ∀ l : List FunctionEntry, (∀ e ∈ l, 0 < e.lines) →
      l.Pairwise (fun a b => a.lines ≤ b.lines) → rank l = l := by
  have fixed : ∀ l : List FunctionEntry, (∀ e ∈ l, 0 < e.lines) →
      l.Pairwise (linesLE · ·) → rank l = l := by
    intro l hpos hsorted
    have hfilter : filter_empty_functions l = l := by
      rw [filter_empty_functions]
      exact List.filter_eq_self.mpr (fun a ha => by simpa using hpos a ha)
    rw [rank, order_by_lines, hfilter]
    exact List.mergeSort_of_sorted hsorted
  constructor
  · intro l
    exact fixed (rank l) (fun e he => lines_pos_of_mem_rank he)
      (rank_pairwise_linesLE l)
  · intro l hpos hsorted
    exact fixed l hpos (hsorted.imp (fun hab => by simpa [linesLE] using hab))

/-- C8 witness: idempotence at a concrete list, and a concrete filtered,
sorted list is a fixed point. -/
theorem rank_idempotent_witness :
    rank (rank [oneLineEntry]) = rank [oneLineEntry] ∧
    rank ([] : List FunctionEntry) = [] :=
  ⟨rank_idempotent.1 [oneLineEntry],
   rank_idempotent.2 [] (fun e he => absurd he (List.not_mem_nil e))
     List.Pairwise.nil⟩

/-! ### C7 -/

/-- Modelled from the spec's description of the extracted argument list, for
comparison with the extractor: position by position, each argument starting
with `-I` or `-D` is kept, and each occurrence of the exact token `-isystem`
contributes itself together with its immediately following argument; nothing
else is kept. -/
def extracted_args_spec : List String → List String
  | [] => []
  | arg :: rest =>
    ((if py_startswith arg "-I" || py_startswith arg "-D" then [arg] else []) ++
     (if arg = "-isystem" then
        match rest with
        | nxt :: _ => [arg, nxt]
        | [] => []
      else [])) ++ extracted_args_spec rest

/-- A command is well formed when every occurrence of `-isystem` has a
following argument. -/
def IsystemWellFormed (full : List String) : Prop :=
  ∀ i : Fin full.length, full.get i = "-isystem" → (i : Nat) + 1 < full.length

instance (full : List String) : Decidable (IsystemWellFormed full) := by
  unfold IsystemWellFormed
  infer_instance

/-- The extractor loop, started at index `idx` with accumulator `acc`, appends
to `acc` exactly the spec-described extraction of the remaining suffix,
provided no `-isystem` lacks its following argument. -/
theorem compilation_args_loop_eq_spec (full : List String)
    (hwf : IsystemWellFormed full) :
    ∀ (fuel idx : Nat), full.length - idx ≤ fuel → ∀ acc : List String,
    compilation_args_loop full idx acc =
      Except.ok (acc ++ extracted_args_spec (full.drop idx)) := by
  intro fuel
  induction fuel with
  | zero =>
    intro idx hle acc
    have hge : full.length ≤ idx := by omega
    rw [compilation_args_loop, dif_neg (by omega)]
    rw [List.drop_eq_nil_of_le hge]
    simp [extracted_args_spec]
  | succ fuel ih =>
    intro idx hle acc
    by_cases h : idx < full.length
    · rw [compilation_args_loop, dif_pos h]
      have hdrop : full.drop idx = full.get ⟨idx, h⟩ :: full.drop (idx + 1) :=
        List.drop_eq_getElem_cons h
      set arg := full.get ⟨idx, h⟩ with harg
      have hfa : (if py_startswith arg "-I" || py_startswith arg "-D" then
          acc ++ [arg] else acc) =
          acc ++ (if py_startswith arg "-I" || py_startswith arg "-D" then
            [arg] else []) := by
        by_cases hc : (py_startswith arg "-I" || py_startswith arg "-D") = true
        · rw [if_pos hc, if_pos hc]
        · rw [if_neg hc, if_neg hc, List.append_nil]
      by_cases hsys : arg = "-isystem"
      · rw [if_pos hsys, if_pos h]
        have hnext : idx + 1 < full.length := hwf ⟨idx, h⟩ hsys
        have hsome : full.get? (idx + 1) = some (full.get ⟨idx + 1, hnext⟩) :=
          List.get?_eq_get hnext
        rw [hsome]
        have hdrop2 : full.drop (idx + 1) =
            full.get ⟨idx + 1, hnext⟩ :: full.drop (idx + 2) :=
          List.drop_eq_getElem_cons hnext
        dsimp only
        rw [ih (idx + 1) (by omega)]
        rw [hdrop, hdrop2]
        simp only [extracted_args_spec, if_pos hsys]
        rw [hfa]
        simp
      · rw [if_neg hsys]
        rw [ih (idx + 1) (by omega)]
        rw [hdrop]
        simp only [extracted_args_spec, if_neg hsys]
        rw [hfa]
        simp
    · rw [compilation_args_loop, dif_neg h]
      rw [List.drop_eq_nil_of_le (by omega)]
      simp [extracted_args_spec]

/-- C7: when the looked-up compile command is well formed, the extracted
argument list is exactly the spec-described one — each `-I`-prefixed
argument, each `-D`-prefixed argument and each `-isystem` with its following
argument, in input order and nothing else — and with no database the
extracted list is empty. -/
theorem extracted_args_exactly_include_macro_isystem
    (absF : Path → Path) (db : Option CompilationDatabase) (source : Path)
    (full : List String)
    (hfull : compile_commands_from_db absF db source = Except.ok full)
    (hwf : IsystemWellFormed full) :
    compilation_args_from_db absF db source =
      Except.ok (extracted_args_spec full) ∧
    ∀ src : Path, compilation_args_from_db absF none src = Except.ok [] := by
  constructor
  · rw [compilation_args_from_db, hfull]
    have := compilation_args_loop_eq_spec full hwf (full.length) 0 (by omega) []
    simpa using this
  · intro src
    rw [compilation_args_from_db]
    show compilation_args_loop [] 0 [] = Except.ok []
    have := compilation_args_loop_eq_spec [] (by intro i; exact absurd i.2 (by simp))
      0 0 (by simp) []
    simpa [extracted_args_spec] using this

/-- Example database whose only command mixes kept and dropped flags. -/
def dbMixedFlags : CompilationDatabase :=
  { getCompileCommands := fun _ =>
      [{ filename := "a.cpp",
         arguments := ["cc", "-Iinc", "-O2", "-isystem", "/usr/include",
                       "-DX=1", "-o", "a.o"] }],
    getAllCompileCommands := [] }

/-- C7 witness: on the concrete mixed command, the extractor keeps exactly
`-Iinc`, the `-isystem` pair and `-DX=1`, in order. -/
theorem extracted_args_exactly_include_macro_isystem_witness :
    compilation_args_from_db id (some dbMixedFlags) "a.cpp" =
      Except.ok (extracted_args_spec
        ["cc", "-Iinc", "-O2", "-isystem", "/usr/include", "-DX=1", "-o", "a.o"]) ∧
    ∀ src : Path, compilation_args_from_db id none src = Except.ok [] :=
  extracted_args_exactly_include_macro_isystem id (some dbMixedFlags) "a.cpp"
    ["cc", "-Iinc", "-O2", "-isystem", "/usr/include", "-DX=1", "-o", "a.o"]
    rfl (by decide)

/-! ### C6 -/

/-- The entry list carried by a successful per-file result (`[]` for an
error), used to describe the combined batch output. -/
def okEntries (r : Except PyError (List FunctionEntry)) : List FunctionEntry :=
  match r with
  | Except.ok l => l
  | Except.error _ => []

/-- A file whose argument extraction succeeds is processed without a
`PyError`: either its parse fails recoverably (yielding `[]`) or its filtered
entries are returned. -/
theorem functions_from_file_ok (env : ASTProvider) (absF : Path → Path)
    (db : Option CompilationDatabase) (g : Path)
    (hargs : ∃ a, compilation_args_from_db absF db g = Except.ok a) :
    ∃ l, functions_from_file env absF db g = Except.ok l := by
  obtain ⟨a, ha⟩ := hargs
  cases hp : env.parse g a with
  | error e => exact ⟨[], by simp [functions_from_file, ha, tu_from_source, hp]⟩
  | ok tu =>
    exact ⟨filter_empty_functions (list_of_functions tu (rootPCursor tu)),
      by simp [functions_from_file, ha, tu_from_source, hp]⟩

/-- Per-file processing depends on the provider only through `parse` at that
file. -/
theorem functions_from_file_congr (env env' : ASTProvider) (absF : Path → Path)
    (db : Option CompilationDatabase) (g : Path)
    (h : env'.parse g = env.parse g) :
    functions_from_file env' absF db g = functions_from_file env absF db g := by
  simp [functions_from_file, tu_from_source, h]

/-- A file whose parse raises the recoverable failure contributes the empty
entry list. -/
theorem functions_from_file_parse_fail (env' : ASTProvider) (absF : Path → Path)
    (db : Option CompilationDatabase) (f : Path)
    (hargs : ∃ a, compilation_args_from_db absF db f = Except.ok a)
    (hfail : ∀ args, env'.parse f args =
      Except.error ParseError.translationUnitLoadError) :
    functions_from_file env' absF db f = Except.ok [] := by
  obtain ⟨a, ha⟩ := hargs
  simp [functions_from_file, ha, tu_from_source, hfail]

/-- When every selected file processes without a `PyError`, the batch result
is the concatenation of the per-file entry lists. -/
theorem batch_functions_eq_flatten (env : ASTProvider) (absF : Path → Path)
    (dbc : CompilationDatabase) (ms : Option Int)
    (h : ∀ g ∈ selected_sources dbc ms,
      ∃ l, functions_from_file env absF (some dbc) g = Except.ok l) :
    batch_functions env absF dbc ms =
      Except.ok (((selected_sources dbc ms).map
        (fun g => okEntries (functions_from_file env absF (some dbc) g))).flatten) := by
  rw [batch_functions]
  revert h
  generalize selected_sources dbc ms = files
  intro h
  induction files with
  | nil => simp
  | cons hd tl ih =>
    obtain ⟨l, hl⟩ := h hd (List.mem_cons_self hd tl)
    have hrest := ih (fun g hg => h g (List.mem_cons_of_mem hd hg))
    simp only [List.foldr_cons, List.map_cons, List.flatten_cons, hrest, hl]
    simp [okEntries, hl]

/-- C6: in a batch run, a file whose parse raises the recoverable failure
contributes exactly zero entries, the per-file results of every other file
are unchanged by that failure (comparing the failing provider `env'` with a
provider `env` it agrees with away from `f`), and the combined result is the
concatenation of the per-file entry lists with `f` contributing `[]`. -/
theorem parse_failure_zero_contribution
    (env env' : ASTProvider) (absF : Path → Path) (dbc : CompilationDatabase)
    (ms : Option Int) (f : Path)
    (hargs : ∀ g ∈ selected_sources dbc ms,
      ∃ a, compilation_args_from_db absF (some dbc) g = Except.ok a)
    (hargsf : ∃ a, compilation_args_from_db absF (some dbc) f = Except.ok a)
    (hfail : ∀ args, env'.parse f args =
      Except.error ParseError.translationUnitLoadError)
    (hagree : ∀ g, g ≠ f → env'.parse g = env.parse g) :
    functions_from_file env' absF (some dbc) f = Except.ok [] ∧
    (∀ g, g ≠ f → functions_from_file env' absF (some dbc) g =
      functions_from_file env absF (some dbc) g) ∧
    batch_functions env' absF dbc ms =
      Except.ok (((selected_sources dbc ms).map
        (fun g => if g = f then [] else
          okEntries (functions_from_file env absF (some dbc) g))).flatten) := by
  have hzero : functions_from_file env' absF (some dbc) f = Except.ok [] :=
    functions_from_file_parse_fail env' absF (some dbc) f hargsf hfail
  have hcongr : ∀ g, g ≠ f → functions_from_file env' absF (some dbc) g =
      functions_from_file env absF (some dbc) g :=
    fun g hg => functions_from_file_congr env env' absF (some dbc) g (hagree g hg)
  refine ⟨hzero, hcongr, ?_⟩
  rw [batch_functions_eq_flatten env' absF dbc ms
    (fun g hg => functions_from_file_ok env' absF (some dbc) g (hargs g hg))]
  congr 1
  congr 1
  refine List.map_congr_left (fun g _ => ?_)
  by_cases hgf : g = f
  · subst hgf
    rw [if_pos rfl, hzero]
    rfl
  · rw [if_neg hgf, hcongr g hgf]

/-- Example translation unit with a single two-line free function. -/
def tuSmall : Cursor :=
  Cursor.mk CursorKind.TRANSLATION_UNIT "w.cpp" "w.cpp" none
    [Cursor.mk CursorKind.FUNCTION_DECL "w" "w()" (some ⟨1, 3⟩) []]

/-- Example database for the batch witness: two files, empty argument lists. -/
def dbBatch : CompilationDatabase :=
  { getCompileCommands := fun g => [{ filename := g, arguments := [] }],
    getAllCompileCommands :=
      [{ filename := "f1.cpp", arguments := [] },
       { filename := "f2.cpp", arguments := [] }] }

/-- Provider that parses every file to `tuSmall`. -/
def envAllOk : ASTProvider := { parse := fun _ _ => Except.ok tuSmall }

/-- Provider that fails on `f1.cpp` and behaves like `envAllOk` elsewhere. -/
def envFailF1 : ASTProvider :=
  { parse := fun p args =>
      if p = "f1.cpp" then Except.error ParseError.translationUnitLoadError
      else envAllOk.parse p args }

/-- C6 witness: with `f1.cpp` failing to parse, it contributes `[]` and the
batch result is the concatenation with `f1.cpp` replaced by `[]`. -/
theorem parse_failure_zero_contribution_witness :
    functions_from_file envFailF1 id (some dbBatch) "f1.cpp" = Except.ok [] ∧
    (∀ g, g ≠ "f1.cpp" → functions_from_file envFailF1 id (some dbBatch) g =
      functions_from_file envAllOk id (some dbBatch) g) ∧
    batch_functions envFailF1 id dbBatch none =
      Except.ok (((selected_sources dbBatch none).map
        (fun g => if g = "f1.cpp" then [] else
          okEntries (functions_from_file envAllOk id (some dbBatch) g))).flatten) :=
  parse_failure_zero_contribution envAllOk envFailF1 id dbBatch none "f1.cpp"
    (fun g _ => ⟨[], by simp [compilation_args_from_db, compile_commands_from_db,
      dbBatch, compilation_args_loop]⟩)
    (⟨[], by simp [compilation_args_from_db, compile_commands_from_db,
      dbBatch, compilation_args_loop]⟩)
    (fun args => by simp [envFailF1])
    (fun g hg => by funext args; simp [envFailF1, envAllOk, hg])

/-! ### C9 -/

/-- Example database knowing exactly one file. -/
def dbOne : CompilationDatabase :=
  { getCompileCommands := fun _ => [],
    getAllCompileCommands := [{ filename := "f1.cpp", arguments := ["cc"] }] }

/-- C9 counterexample: with `--max-sources 0` the cap is not applied — Python
treats `0` as falsy in `if args.max_sources:` — so one file (all files) is
selected for processing, not zero. -/
theorem max_sources_zero_processes_all_cex :
    selected_sources dbOne (some 0) = ["f1.cpp"] ∧
    ¬ ((selected_sources dbOne (some 0)).length ≤ 0) := by
  constructor
  · rfl
  · decide

/-- C9 (amended): with `--max-sources N` supplied and positive, at most `N`
files from the database are selected for processing; `N = 0` is treated as
"no cap" and selects every file the database knows. -/
theorem max_sources_cap (dbc : CompilationDatabase) (n : Int) (h : 0 < n) :
    (selected_sources dbc (some n)).length ≤ n.toNat ∧
    selected_sources dbc (some 0) = source_files_from_db dbc := by
  constructor
  · rw [selected_sources]
    rw [if_pos (by omega : n ≠ 0)]
    rw [pySliceTo, if_pos (by omega : (0 : Int) ≤ n)]
    simp [List.length_take]
  · rw [selected_sources]
    simp

/-- C9 witness: the amended cap at the concrete database and `N = 1`. -/
theorem max_sources_cap_witness :
    (selected_sources dbOne (some 1)).length ≤ (1 : Int).toNat ∧
    selected_sources dbOne (some 0) = source_files_from_db dbOne :=
  max_sources_cap dbOne 1 (by decide)

end Lof
